import Mathlib

/-!
Verification of the FlashMQ worker-thread core (threaddata.h / utils.h /
flashmq_plugin.h) against its natural-language specification.

The repository provides the headers; pure inline code (`check`, the
`AuthResult` enumeration) is embedded directly from the source.  The bodies
of the `ThreadData` methods (keep-alive scheduling, client registry, task
queue, removal queue, graceful shutdown) are declared in `threaddata.h` but
their definitions are not part of the provided sources, so those components
are modelled from the specification, using the data shapes the header fixes
(`std::unordered_map<int, std::shared_ptr<Client>> clients_by_fd`,
`std::map<std::chrono::seconds, std::vector<KeepAliveCheck>>
queuedKeepAliveChecks`, `std::forward_list<std::function<void()>> taskQueue`,
`std::forward_list<std::weak_ptr<Client>> clientsQueuedForRemoving`, and the
shutdown flags `running`, `allWillsQueued`, `allDisconnectsSent`).
-/

namespace FlashMQ

/-! ## AuthResult (from flashmq_plugin.h) -/

/-- The `AuthResult` enum, from `flashmq_plugin.h`.  Constructor order follows
the source: `success`, `auth_method_not_supported`, `acl_denied`,
`login_denied`, `error`, `auth_continue`. -/
inductive AuthResult where
  | success
  | auth_method_not_supported
  | acl_denied
  | login_denied
  | error
  | auth_continue
  deriving DecidableEq, Repr

/-- The integer value each `AuthResult` enumerator carries in the source
(`success = 0`, `auth_method_not_supported = 10`, `acl_denied = 12`,
`login_denied = 11`, `error = 13`, `auth_continue = -4`). -/
def AuthResult.toInt : AuthResult → Int
  | .success => 0
  | .auth_method_not_supported => 10
  | .acl_denied => 12
  | .login_denied => 11
  | .error => 13
  | .auth_continue => -4

/-! ## check<T> (from utils.h)

`template<typename T> int check(int rc)` throws `T(strerror(errno))` when
`rc < 0` and returns `rc` unchanged otherwise.  The exception is embedded as
the `Except.error` case carrying the errno message; the message string is a
parameter standing for the ambient `errno` state. -/

/-- Embedding of `check<T>` from `utils.h`: `rc < 0` throws an exception
built from the current errno message, otherwise `rc` is returned. -/
def check (errnoMessage : String) (rc : Int) : Except String Int :=
  if rc < 0 then
    Except.error errnoMessage
  else
    Except.ok rc

/-! ## ClientRegistry (`clients_by_fd`)

`threaddata.h` fixes the shape `std::unordered_map<int, std::shared_ptr<Client>>
clients_by_fd` and declares `giveClient`, `removeClient`, `getClient`; the
method bodies are not in the provided sources. -/

/-- Registry errors of the specification's `give_client`. -/
inductive RegError where
  | DuplicateHandle
  deriving DecidableEq, Repr

/-- The client registry: an association list embedding
`clients_by_fd : std::unordered_map<int, std::shared_ptr<Client>>`, keyed by
connection handle (fd). -/
abbrev Registry (τ : Type) : Type := List (Nat × τ)

/-- Lookup by connection handle, embedding `ThreadData::getClient(int fd)`. -/
def getClient {τ : Type} (reg : Registry τ) (fd : Nat) : Option τ :=
  (reg.find? (fun p => p.1 == fd)).map (·.2)

/-- Modelled from the spec: `ThreadData::giveClient` (body not in the provided
sources) — "`give_client(client)`: inserts; ... Fails with `DuplicateHandle`
if already present". -/
def giveClient {τ : Type} (reg : Registry τ) (fd : Nat) (c : τ) :
    Except RegError (Registry τ) :=
  if reg.any (fun p => p.1 == fd) then
    Except.error RegError.DuplicateHandle
  else
    Except.ok ((fd, c) :: reg)

/-- Modelled from the spec: `ThreadData::removeClient` (body not in the
provided sources) — "`remove(handle_or_client)`: drops from the map". -/
def removeClient {τ : Type} (reg : Registry τ) (fd : Nat) : Registry τ :=
  reg.filter (fun p => p.1 != fd)

/-- Modelled from the spec: draining one `clientsQueuedForRemoving` entry
(body not in the provided sources) — the entry is a `std::weak_ptr<Client>`;
a dropped Client resolves to `none` and is discarded, a live one is removed
from the registry. -/
def drainRemovalEntry {τ : Type} (reg : Registry τ) (entry : Option Nat) :
    Registry τ :=
  match entry with
  | none => reg
  | some fd => removeClient reg fd

/-! ## TaskQueue

`threaddata.h` fixes the shape `std::forward_list<std::function<void()>>
taskQueue` guarded by `taskQueueMutex`; the posting and draining code is not
in the provided sources.  Modelled from the spec: `post(f)` appends under the
mutex; drain swaps the whole list out and executes the closures in order;
closures posted during a drain run in the next iteration. -/

/-- A task-queue event seen by one worker: a task `t` posted by producer
thread `p`, or a drain of the whole queue by the owning worker. -/
inductive TQEvent (τ : Type) where
  | post (p : Nat) (t : τ)
  | drain
  deriving DecidableEq, Repr

/-- Worker-side task-queue state: the pending queue (oldest first) and the
closures already executed, in execution order, tagged by producer. -/
structure TQState (τ : Type) where
  queue : List (Nat × τ)
  executed : List (Nat × τ)
  deriving DecidableEq, Repr

/-- Modelled from the spec: one task-queue event.  `post` appends to the
pending list under the mutex; `drain` swaps the list out and executes every
closure in list order. -/
def tqStep {τ : Type} (s : TQState τ) : TQEvent τ → TQState τ
  | .post p t => ⟨s.queue ++ [(p, t)], s.executed⟩
  | .drain => ⟨[], s.executed ++ s.queue⟩

/-- Run a chronological sequence of task-queue events from an empty queue. -/
def tqRun {τ : Type} (evs : List (TQEvent τ)) : TQState τ :=
  evs.foldl tqStep ⟨[], []⟩

/-- The tasks producer `p` posted, in posting order. -/
def postsOf {τ : Type} (p : Nat) (evs : List (TQEvent τ)) : List τ :=
  evs.filterMap fun e =>
    match e with
    | .post q t => if q = p then some t else none
    | .drain => none

/-- Restriction of a tagged task list to the tasks of producer `p`. -/
def tasksOf {τ : Type} (p : Nat) (l : List (Nat × τ)) : List τ :=
  l.filterMap fun e => if e.1 = p then some e.2 else none

/-! ## Reload tasks (`queueReload` / `settingsLocalCopy`)

Modelled from the spec: `queue_reload(settings)` posts a closure that
replaces the worker's `settingsLocalCopy`; other queued work leaves the
settings copy alone. -/

/-- A queued closure as it affects the worker's `settingsLocalCopy`: a
reload task carrying new settings, or any other task. -/
inductive WorkerTask (σ : Type) where
  | reload (s : σ)
  | passive
  deriving DecidableEq, Repr

/-- Modelled from the spec: executing one queued closure on the worker.
A reload closure overwrites `settingsLocalCopy`; other closures do not
touch it. -/
def execTask {σ : Type} (settingsLocalCopy : σ) : WorkerTask σ → σ
  | .reload s => s
  | .passive => settingsLocalCopy

/-- Draining a list of queued closures in order, tracking the value of
`settingsLocalCopy`. -/
def drainTasks {σ : Type} (settingsLocalCopy : σ) (tasks : List (WorkerTask σ)) : σ :=
  tasks.foldl execTask settingsLocalCopy

/-! ## KeepAliveScheduler

`threaddata.h` fixes `struct KeepAliveCheck { std::weak_ptr<Client> client;
bool recheck = true; }` and `std::map<std::chrono::seconds,
std::vector<KeepAliveCheck>> queuedKeepAliveChecks`; the bodies of
`doKeepAliveCheck` and `queueClientNextKeepAliveCheck` are not in the
provided sources and are modelled from spec §4.4.  Times are whole seconds
(`Nat`); the `1.5 · K` threshold is embedded without fractions as
`2 · idle` versus `3 · K`. -/

/-- A connected client as the keep-alive scheduler sees it: the identity of
the underlying shared object (what a `weak_ptr` resolves to), the negotiated
keep-alive seconds and the last-activity timestamp in seconds. -/
structure Client where
  cid : Nat
  keepAlive : Nat
  lastActivity : Nat
  deriving DecidableEq, Repr

/-- Disconnect reasons used by the worker core. -/
inductive DisconnectReason where
  | KeepAliveTimeout
  deriving DecidableEq, Repr

/-- `KeepAliveCheck` from `threaddata.h`: a weak reference to a Client (kept
as the client identity, resolved against the live clients on use) and the
`recheck` flag. -/
structure KACheck where
  clientId : Nat
  recheck : Bool
  deriving DecidableEq, Repr

/-- `queuedKeepAliveChecks : std::map<seconds, vector<KeepAliveCheck>>`:
buckets keyed by absolute deadline in whole seconds. -/
abbrev KAMap : Type := List (Nat × List KACheck)

/-- All checks in the map, across buckets. -/
def checksOf (m : KAMap) : List KACheck := m.flatMap (·.2)

/-- Number of checks in the map referring to client identity `i`. -/
def countFor (i : Nat) (m : KAMap) : Nat :=
  (checksOf m).countP (fun chk => chk.clientId == i)

/-- Insert a check into the bucket keyed `deadline`, creating the bucket if
absent (the `std::map` vector push-back). -/
def insertCheck (m : KAMap) (deadline : Nat) (chk : KACheck) : KAMap :=
  match m with
  | [] => [(deadline, [chk])]
  | b :: rest =>
    if b.1 = deadline then (b.1, b.2 ++ [chk]) :: rest
    else b :: insertCheck rest deadline chk

/-- Ceiling half: `halfUp n = ⌈n / 2⌉`, used to round `1.5 · K − idle`
seconds up to a whole-second deadline. -/
def halfUp (n : Nat) : Nat := (n + 1) / 2

/-- Modelled from the spec: `ThreadData::queueClientNextKeepAliveCheck`
(body not in the provided sources) — keep-alive 0 disables the check
entirely, no entry is inserted; otherwise a check is queued at deadline
`now + 1.5 · K` (rounded up). -/
def queueClientNextKeepAliveCheck (m : KAMap) (c : Client) (now : Nat)
    (keepRechecking : Bool) : KAMap :=
  if c.keepAlive = 0 then m
  else insertCheck m (now + halfUp (3 * c.keepAlive)) ⟨c.cid, keepRechecking⟩

/-- Outcome of firing one due `KeepAliveCheck`. -/
inductive CheckOutcome where
  | discard
  | reenqueue (deadline : Nat)
  | drop
  | disconnect (reason : DisconnectReason)
  deriving DecidableEq, Repr

/-- Modelled from the spec: firing one due check (§4.4) — client gone ⇒
discard; `now − last_activity < 1.5 · K` ⇒ re-enqueue at
`now + (1.5·K − idle)` rounded up when `recheck`, else drop; otherwise ⇒
disconnect with `KeepAliveTimeout` and no re-enqueue. -/
def fireCheck (now : Nat) (resolved : Option Client) (recheck : Bool) :
    CheckOutcome :=
  match resolved with
  | none => .discard
  | some c =>
    let idle := now - c.lastActivity
    if 2 * idle < 3 * c.keepAlive then
      if recheck then .reenqueue (now + halfUp (3 * c.keepAlive - 2 * idle))
      else .drop
    else .disconnect .KeepAliveTimeout

/-- Fire all due checks in order: returns the re-enqueue requests (deadline,
check) and the clients to disconnect (identity, reason). -/
def processChecks (resolve : Nat → Option Client) (now : Nat) :
    List KACheck → List (Nat × KACheck) × List (Nat × DisconnectReason)
  | [] => ([], [])
  | chk :: rest =>
    let r := processChecks resolve now rest
    match fireCheck now (resolve chk.clientId) chk.recheck with
    | .discard => r
    | .drop => r
    | .reenqueue d => ((d, chk) :: r.1, r.2)
    | .disconnect reason => (r.1, (chk.clientId, reason) :: r.2)

/-- The buckets whose deadline has passed. -/
def dueBuckets (now : Nat) (m : KAMap) : KAMap :=
  m.filter (fun b => decide (b.1 ≤ now))

/-- The buckets whose deadline is still in the future. -/
def restBuckets (now : Nat) (m : KAMap) : KAMap :=
  m.filter (fun b => !(decide (b.1 ≤ now)))

/-- Result of one keep-alive sweep: the new map and the disconnections. -/
structure KAResult where
  map : KAMap
  disconnected : List (Nat × DisconnectReason)
  deriving DecidableEq, Repr

/-- Modelled from the spec: `ThreadData::doKeepAliveCheck` (body not in the
provided sources) — every bucket with deadline ≤ now fires; each of its
checks resolves its weak reference and is discarded, re-enqueued or turned
into a disconnect per §4.4; re-enqueues land back in the remaining map. -/
def doKeepAliveCheck (resolve : Nat → Option Client) (now : Nat) (m : KAMap) :
    KAResult :=
  let r := processChecks resolve now (checksOf (dueBuckets now m))
  ⟨r.1.foldl (fun acc p => insertCheck acc p.1 p.2) (restBuckets now m), r.2⟩

/-- The keep-alive-relevant state of one worker: its live clients and its
`queuedKeepAliveChecks` map. -/
structure KAState where
  clients : List Client
  kaMap : KAMap

/-- Resolving a weak reference: find the live client with that identity. -/
def resolveClient (clients : List Client) (i : Nat) : Option Client :=
  clients.find? (fun c => c.cid == i)

/-- Modelled from the spec: the states a worker's keep-alive subsystem can
reach — start empty; a new connection queues the initial check (the fresh
shared object is not referenced by any existing weak reference); a client
can disconnect (its stale checks stay until they fire); packet activity
updates `last_activity` lazily without touching the map; a sweep fires the
due buckets and drops the clients it disconnects. -/
inductive KAReach : KAState → Prop where
  | init : KAReach ⟨[], []⟩
  | connect (s : KAState) (c : Client) (now : Nat) (keepRechecking : Bool)
      (hs : KAReach s)
      (hfresh : resolveClient s.clients c.cid = none)
      (hnochk : countFor c.cid s.kaMap = 0) :
      KAReach ⟨c :: s.clients,
        queueClientNextKeepAliveCheck s.kaMap c now keepRechecking⟩
  | disconnect (s : KAState) (i : Nat) (hs : KAReach s) :
      KAReach ⟨s.clients.filter (fun c => c.cid != i), s.kaMap⟩
  | activity (s : KAState) (i t : Nat) (hs : KAReach s) :
      KAReach ⟨s.clients.map
          (fun c => if c.cid = i then { c with lastActivity := t } else c),
        s.kaMap⟩
  | fire (s : KAState) (now : Nat) (hs : KAReach s) :
      KAReach ⟨s.clients.filter (fun c =>
          !((doKeepAliveCheck (resolveClient s.clients) now s.kaMap).disconnected.any
            (fun d => d.1 == c.cid))),
        (doKeepAliveCheck (resolveClient s.clients) now s.kaMap).map⟩

/-- The keep-alive invariant of spec §3: each live Client has at most one
active `KeepAliveCheck` across all buckets; additionally live client
identities are unique and every check that resolves to a live client refers
to one with non-zero keep-alive (keep-alive 0 disables the check). -/
def KAInv (s : KAState) : Prop :=
  (s.clients.map (·.cid)).Nodup ∧
  (∀ c ∈ s.clients, countFor c.cid s.kaMap ≤ 1) ∧
  (∀ chk ∈ checksOf s.kaMap, ∀ c ∈ s.clients, chk.clientId = c.cid →
    0 < c.keepAlive)

/-! ## Graceful shutdown (WillOrchestrator)

`threaddata.h` fixes the latched flags `running`, `allWillsQueued`,
`allDisconnectsSent` and declares `sendAllWills` / `sendAllDisconnects`;
the loop body is not in the provided sources.  Modelled from spec §4.8: a
worker first clears `running`, then queues all wills (setting
`allWillsQueued`), may send protocol DISCONNECTs only once every worker has
queued its wills (setting `allDisconnectsSent`), and its loop exits only
once all workers carry both flags. -/

/-- The shutdown flags of one worker (`threaddata.h` public members). -/
structure WorkerFlags where
  running : Bool
  allWillsQueued : Bool
  allDisconnectsSent : Bool
  deriving DecidableEq, Repr

/-- Observable shutdown events of a fleet of `n` workers: worker `w`
processes its quit task, submits all wills to the routing path, or sends
protocol DISCONNECT frames and closes connections. -/
inductive SEvent (n : Nat) where
  | quit (w : Fin n)
  | wills (w : Fin n)
  | disconnects (w : Fin n)
  deriving DecidableEq, Repr

/-- Worker `w` clears its `running` flag. -/
def setRunningFalse {n : Nat} (s : Fin n → WorkerFlags) (w : Fin n) :
    Fin n → WorkerFlags :=
  fun v => if v = w then { s v with running := false } else s v

/-- Worker `w` latches `allWillsQueued`. -/
def setWillsQueued {n : Nat} (s : Fin n → WorkerFlags) (w : Fin n) :
    Fin n → WorkerFlags :=
  fun v => if v = w then { s v with allWillsQueued := true } else s v

/-- Worker `w` latches `allDisconnectsSent`. -/
def setDisconnectsSent {n : Nat} (s : Fin n → WorkerFlags) (w : Fin n) :
    Fin n → WorkerFlags :=
  fun v => if v = w then { s v with allDisconnectsSent := true } else s v

/-- Modelled from the spec: the reachable (flags, event-trace) pairs of the
§4.8 shutdown protocol.  `sendAllWills` runs only after the worker's own
quit; `sendAllDisconnects` additionally waits for `allWillsQueued` on every
worker (the first barrier). -/
inductive ShutdownReach (n : Nat) :
    (Fin n → WorkerFlags) → List (SEvent n) → Prop where
  | init : ShutdownReach n (fun _ => ⟨true, false, false⟩) []
  | quit (s : Fin n → WorkerFlags) (tr : List (SEvent n)) (w : Fin n)
      (hs : ShutdownReach n s tr) :
      ShutdownReach n (setRunningFalse s w) (tr ++ [SEvent.quit w])
  | wills (s : Fin n → WorkerFlags) (tr : List (SEvent n)) (w : Fin n)
      (hs : ShutdownReach n s tr)
      (hrun : (s w).running = false)
      (hnot : (s w).allWillsQueued = false) :
      ShutdownReach n (setWillsQueued s w) (tr ++ [SEvent.wills w])
  | disconnects (s : Fin n → WorkerFlags) (tr : List (SEvent n)) (w : Fin n)
      (hs : ShutdownReach n s tr)
      (hrun : (s w).running = false)
      (hall : ∀ v, (s v).allWillsQueued = true)
      (hnot : (s w).allDisconnectsSent = false) :
      ShutdownReach n (setDisconnectsSent s w) (tr ++ [SEvent.disconnects w])

/-- The exit condition of `run_until_quit` for worker `w` (spec §4.1/§4.8):
`running` cleared and both barrier flags set on all workers. -/
def canExitLoop {n : Nat} (s : Fin n → WorkerFlags) (w : Fin n) : Prop :=
  (s w).running = false ∧
  ∀ v, (s v).allWillsQueued = true ∧ (s v).allDisconnectsSent = true

/-- A complete two-worker shutdown: both quit, both queue wills, both send
disconnects. -/
def demoShutdownState : Fin 2 → WorkerFlags :=
  setDisconnectsSent
    (setDisconnectsSent
      (setWillsQueued
        (setWillsQueued
          (setRunningFalse
            (setRunningFalse (fun _ => ⟨true, false, false⟩) 0) 1) 0) 1) 0) 1

/-- The event trace of `demoShutdownState`. -/
def demoShutdownTrace : List (SEvent 2) :=
  [SEvent.quit 0, SEvent.quit 1, SEvent.wills 0, SEvent.wills 1,
   SEvent.disconnects 0, SEvent.disconnects 1]

end FlashMQ

/-! ## Theorems -/

open FlashMQ

/-! ### Keep-alive bookkeeping lemmas -/

theorem mem_checksOf {chk : KACheck} {m : KAMap} :
    chk ∈ checksOf m ↔ ∃ b ∈ m, chk ∈ b.2 := by
  simp [checksOf, List.mem_flatMap]

theorem mem_checksOf_filter {chk : KACheck} {m : KAMap} {p : Nat × List KACheck → Bool}
    (h : chk ∈ checksOf (m.filter p)) : chk ∈ checksOf m := by
  obtain ⟨b, hb, hchk⟩ := mem_checksOf.mp h
  exact mem_checksOf.mpr ⟨b, List.mem_of_mem_filter hb, hchk⟩

theorem checksOf_cons (b : Nat × List KACheck) (m : KAMap) :
    checksOf (b :: m) = b.2 ++ checksOf m := rfl

theorem checksOf_insertCheck_perm (m : KAMap) (d : Nat) (k : KACheck) :
    List.Perm (checksOf (insertCheck m d k)) (k :: checksOf m) := by
  induction m with
  | nil => simp [insertCheck, checksOf]
  | cons b rest ih =>
    by_cases hb : b.1 = d
    · simp only [insertCheck, if_pos hb, checksOf_cons]
      rw [List.append_assoc]
      exact List.perm_middle
    · simp only [insertCheck, if_neg hb, checksOf_cons]
      exact (ih.append_left b.2).trans List.perm_middle

theorem countFor_insertCheck (i : Nat) (m : KAMap) (d : Nat) (k : KACheck) :
    countFor i (insertCheck m d k) =
      countFor i m + (if k.clientId = i then 1 else 0) := by
  unfold countFor
  rw [(checksOf_insertCheck_perm m d k).countP_eq, List.countP_cons]
  by_cases hk : k.clientId = i <;> simp [hk]

theorem mem_checksOf_insertCheck {chk : KACheck} {m : KAMap} {d : Nat} {k : KACheck}
    (h : chk ∈ checksOf (insertCheck m d k)) : chk = k ∨ chk ∈ checksOf m := by
  rcases List.mem_cons.mp ((checksOf_insertCheck_perm m d k).mem_iff.mp h) with h' | h'
  · exact Or.inl h'
  · exact Or.inr h'

theorem countFor_split (i now : Nat) (m : KAMap) :
    countFor i m = countFor i (dueBuckets now m) + countFor i (restBuckets now m) := by
  have hperm : List.Perm (dueBuckets now m ++ restBuckets now m) m :=
    List.filter_append_perm _ m
  have hperm2 : List.Perm (checksOf (dueBuckets now m ++ restBuckets now m))
      (checksOf m) := hperm.flatMap_right _
  unfold countFor
  rw [← hperm2.countP_eq]
  simp [checksOf, List.countP_append]

theorem countFor_foldl_insert (i : Nat) (re : List (Nat × KACheck)) :
    ∀ m0 : KAMap,
      countFor i (re.foldl (fun acc p => insertCheck acc p.1 p.2) m0) =
        countFor i m0 + re.countP (fun p => p.2.clientId == i) := by
  induction re with
  | nil => intro m0; simp
  | cons p re ih =>
    intro m0
    rw [List.foldl_cons, ih, countFor_insertCheck, List.countP_cons]
    by_cases hp : p.2.clientId = i <;> simp [hp] <;> omega

theorem mem_checksOf_foldl_insert {chk : KACheck} (re : List (Nat × KACheck)) :
    ∀ m0 : KAMap,
      chk ∈ checksOf (re.foldl (fun acc p => insertCheck acc p.1 p.2) m0) →
        chk ∈ checksOf m0 ∨ ∃ d, (d, chk) ∈ re := by
  induction re with
  | nil => intro m0 h; exact Or.inl h
  | cons p re ih =>
    intro m0 h
    rcases ih _ h with h' | ⟨d, hd⟩
    · rcases mem_checksOf_insertCheck h' with h'' | h''
      · exact Or.inr ⟨p.1, by simp [h'']⟩
      · exact Or.inl h''
    · exact Or.inr ⟨d, List.mem_cons_of_mem _ hd⟩

theorem fireCheck_reenqueue_recheck {now : Nat} {r : Option Client} {b : Bool}
    {d : Nat} (h : fireCheck now r b = CheckOutcome.reenqueue d) : b = true := by
  cases r with
  | none => simp [fireCheck] at h
  | some c =>
    cases b with
    | true => rfl
    | false =>
      simp only [fireCheck] at h
      split at h <;> simp at h

theorem fireCheck_expired {now : Nat} {c : Client}
    (h : 3 * c.keepAlive ≤ 2 * (now - c.lastActivity)) (b : Bool) :
    fireCheck now (some c) b = CheckOutcome.disconnect DisconnectReason.KeepAliveTimeout := by
  simp only [fireCheck]
  rw [if_neg (by omega)]

theorem processChecks_re_count_le (resolve : Nat → Option Client) (now i : Nat)
    (l : List KACheck) :
    ((processChecks resolve now l).1).countP (fun p => p.2.clientId == i) ≤
      l.countP (fun chk => chk.clientId == i) := by
  induction l with
  | nil => simp [processChecks]
  | cons chk rest ih =>
    simp only [processChecks]
    cases hfc : fireCheck now (resolve chk.clientId) chk.recheck <;>
      simp only [List.countP_cons] <;>
      by_cases hc : chk.clientId = i <;>
      simp [hc] <;> omega

theorem processChecks_re_mem {resolve : Nat → Option Client} {now : Nat}
    {l : List KACheck} {d : Nat} {chk : KACheck}
    (h : (d, chk) ∈ (processChecks resolve now l).1) :
    chk ∈ l ∧ chk.recheck = true ∧
      fireCheck now (resolve chk.clientId) chk.recheck = CheckOutcome.reenqueue d := by
  induction l with
  | nil => simp [processChecks] at h
  | cons chk' rest ih =>
    simp only [processChecks] at h
    cases hfc : fireCheck now (resolve chk'.clientId) chk'.recheck <;>
      rw [hfc] at h
    case discard =>
      obtain ⟨h1, h2, h3⟩ := ih h
      exact ⟨List.mem_cons_of_mem _ h1, h2, h3⟩
    case drop =>
      obtain ⟨h1, h2, h3⟩ := ih h
      exact ⟨List.mem_cons_of_mem _ h1, h2, h3⟩
    case reenqueue d' =>
      rcases List.mem_cons.mp h with h0 | h0
      · injection h0 with hd hchk
        subst hd; subst hchk
        exact ⟨List.mem_cons_self _ _, fireCheck_reenqueue_recheck hfc, hfc⟩
      · obtain ⟨h1, h2, h3⟩ := ih h0
        exact ⟨List.mem_cons_of_mem _ h1, h2, h3⟩
    case disconnect reason =>
      obtain ⟨h1, h2, h3⟩ := ih h
      exact ⟨List.mem_cons_of_mem _ h1, h2, h3⟩

theorem processChecks_disconnected_iff {resolve : Nat → Option Client} {now : Nat}
    {l : List KACheck} {i : Nat} {r : DisconnectReason} :
    (i, r) ∈ (processChecks resolve now l).2 ↔
      ∃ chk ∈ l, chk.clientId = i ∧
        fireCheck now (resolve chk.clientId) chk.recheck =
          CheckOutcome.disconnect r := by
  induction l with
  | nil => simp [processChecks]
  | cons chk' rest ih =>
    simp only [processChecks]
    cases hfc : fireCheck now (resolve chk'.clientId) chk'.recheck <;>
      simp only []
    case discard =>
      rw [ih]
      constructor
      · rintro ⟨chk, h1, h2, h3⟩
        exact ⟨chk, List.mem_cons_of_mem _ h1, h2, h3⟩
      · rintro ⟨chk, h1, h2, h3⟩
        rcases List.mem_cons.mp h1 with h0 | h0
        · subst h0; rw [hfc] at h3; simp at h3
        · exact ⟨chk, h0, h2, h3⟩
    case drop =>
      rw [ih]
      constructor
      · rintro ⟨chk, h1, h2, h3⟩
        exact ⟨chk, List.mem_cons_of_mem _ h1, h2, h3⟩
      · rintro ⟨chk, h1, h2, h3⟩
        rcases List.mem_cons.mp h1 with h0 | h0
        · subst h0; rw [hfc] at h3; simp at h3
        · exact ⟨chk, h0, h2, h3⟩
    case reenqueue d =>
      rw [ih]
      constructor
      · rintro ⟨chk, h1, h2, h3⟩
        exact ⟨chk, List.mem_cons_of_mem _ h1, h2, h3⟩
      · rintro ⟨chk, h1, h2, h3⟩
        rcases List.mem_cons.mp h1 with h0 | h0
        · subst h0; rw [hfc] at h3; simp at h3
        · exact ⟨chk, h0, h2, h3⟩
    case disconnect reason =>
      constructor
      · intro h
        rcases List.mem_cons.mp h with h0 | h0
        · injection h0 with hi hr
          subst hi; subst hr
          exact ⟨chk', List.mem_cons_self _ _, rfl, hfc⟩
        · obtain ⟨chk, h1, h2, h3⟩ := ih.mp h0
          exact ⟨chk, List.mem_cons_of_mem _ h1, h2, h3⟩
      · rintro ⟨chk, h1, h2, h3⟩
        rcases List.mem_cons.mp h1 with h0 | h0
        · subst h0
          subst h2
          rw [hfc] at h3
          injection h3 with hr
          subst hr
          exact List.mem_cons_self _ _
        · exact List.mem_cons_of_mem _ (ih.mpr ⟨chk, h0, h2, h3⟩)

/-- C7: the `AuthResult` enumeration has exactly the stable ABI integer
values `success = 0`, `auth_method_not_supported = 10`, `login_denied = 11`,
`acl_denied = 12`, `error = 13`, `auth_continue = -4`. -/
theorem authResult_stable_abi_values :
    AuthResult.success.toInt = 0 ∧
    AuthResult.auth_method_not_supported.toInt = 10 ∧
    AuthResult.login_denied.toInt = 11 ∧
    AuthResult.acl_denied.toInt = 12 ∧
    AuthResult.error.toInt = 13 ∧
    AuthResult.auth_continue.toInt = -4 :=
  ⟨rfl, rfl, rfl, rfl, rfl, rfl⟩

/-- C10: `check<T>(rc)` returns `rc` unchanged when `rc ≥ 0`, throws an
exception built from the errno message when `rc < 0`, and never returns a
negative value. -/
theorem check_spec (msg : String) (rc : Int) :
    (0 ≤ rc → check msg rc = Except.ok rc) ∧
    (rc < 0 → check msg rc = Except.error msg) ∧
    (∀ v : Int, check msg rc = Except.ok v → 0 ≤ v) := by
  refine ⟨fun h => ?_, fun h => ?_, fun v hv => ?_⟩
  · simp [check, not_lt.mpr h]
  · simp [check, h]
  · by_cases h : rc < 0
    · simp [check, h] at hv
    · simp [check, h] at hv
      omega

/-- Witness for C10 at `msg = "EBADF"`, `rc = 3` and `rc = -1`. -/
theorem check_spec_witness :
    (check "EBADF" 3 = Except.ok 3) ∧ (check "EBADF" (-1) = Except.error "EBADF") := by
  refine ⟨(check_spec "EBADF" 3).1 (by decide), (check_spec "EBADF" (-1)).2.1 (by decide)⟩

/-- C3: `give_client` inserts the client keyed by its connection handle when
the handle is absent, and fails with `DuplicateHandle` when an entry for that
handle is already present (in which case the registry value of the `Except`
is not produced, so the registry is unchanged). -/
theorem giveClient_spec {τ : Type} (reg : Registry τ) (fd : Nat) (c : τ) :
    (getClient reg fd = none →
      giveClient reg fd c = Except.ok ((fd, c) :: reg) ∧
      getClient ((fd, c) :: reg) fd = some c) ∧
    ((∃ x, getClient reg fd = some x) →
      giveClient reg fd c = Except.error RegError.DuplicateHandle) := by
  constructor
  · intro habs
    have hfind : reg.find? (fun p => p.1 == fd) = none := by
      unfold getClient at habs
      exact Option.map_eq_none'.mp habs
    have hany : reg.any (fun p => p.1 == fd) = false := by
      rw [Bool.eq_false_iff]
      intro hsome
      obtain ⟨x, hx, hpx⟩ := List.any_eq_true.mp hsome
      have := List.find?_eq_none.mp hfind x hx
      exact this hpx
    refine ⟨?_, ?_⟩
    · simp [giveClient, hany]
    · simp [getClient, List.find?]
  · rintro ⟨x, hx⟩
    unfold getClient at hx
    obtain ⟨p, hp, hmap⟩ := Option.map_eq_some'.mp hx
    have hmem := List.mem_of_find?_eq_some hp
    have hpx := List.find?_some hp
    have hany : reg.any (fun q => q.1 == fd) = true :=
      List.any_eq_true.mpr ⟨p, hmem, hpx⟩
    simp [giveClient, hany]

/-- Witness for C3: inserting handle 5 into `[(3, 7)]` succeeds and is then
retrievable; inserting handle 3 again fails with `DuplicateHandle`. -/
theorem giveClient_spec_witness :
    (giveClient ([(3, 7)] : Registry Nat) 5 9 = Except.ok [(5, 9), (3, 7)] ∧
      getClient ([(5, 9), (3, 7)] : Registry Nat) 5 = some 9) ∧
    giveClient ([(3, 7)] : Registry Nat) 3 9 = Except.error RegError.DuplicateHandle :=
  ⟨(giveClient_spec [(3, 7)] 5 9).1 (by decide),
   (giveClient_spec [(3, 7)] 3 9).2 ⟨7, by decide⟩⟩

/-- C4: client removal is idempotent — `removeClient` twice equals
`removeClient` once — and draining a `RemovalQueue` entry whose Client is
already dropped (weak reference expired) or already disconnected (absent
from the registry) changes nothing. -/
theorem removeClient_idempotent {τ : Type} (reg : Registry τ) (fd : Nat) :
    removeClient (removeClient reg fd) fd = removeClient reg fd ∧
    drainRemovalEntry reg none = reg ∧
    (getClient reg fd = none → drainRemovalEntry reg (some fd) = reg) := by
  refine ⟨?_, rfl, ?_⟩
  · simp [removeClient, List.filter_filter]
  · intro habs
    have hfind : reg.find? (fun p => p.1 == fd) = none := by
      unfold getClient at habs
      exact Option.map_eq_none'.mp habs
    have hall := List.find?_eq_none.mp hfind
    show removeClient reg fd = reg
    unfold removeClient
    refine List.filter_eq_self.mpr fun p hp => ?_
    have := hall p hp
    simpa [bne] using this

/-- Helper: running events from any state, the executed-then-pending tasks of
producer `p` are the starting ones followed by `p`'s new posts in post
order. -/
theorem tasksOf_foldl_step {τ : Type} (p : Nat) (evs : List (TQEvent τ)) :
    ∀ s : TQState τ,
      tasksOf p ((evs.foldl tqStep s).executed ++ (evs.foldl tqStep s).queue) =
        tasksOf p (s.executed ++ s.queue) ++ postsOf p evs := by
  induction evs with
  | nil => intro s; simp [postsOf]
  | cons e evs ih =>
    intro s
    rw [List.foldl_cons, ih]
    cases e with
    | post q t =>
      by_cases hq : q = p <;>
        simp [tqStep, tasksOf, postsOf, List.filterMap_append, hq]
    | drain =>
      simp [tqStep, tasksOf, postsOf, List.filterMap_append]

/-- C2: for any single producer thread `p`, after the events `evs` and a
final drain, the worker has executed exactly the tasks `p` posted, in the
order `p` posted them, and the queue is empty. -/
theorem taskQueue_fifo_per_producer {τ : Type} (evs : List (TQEvent τ)) (p : Nat) :
    tasksOf p (tqRun (evs ++ [TQEvent.drain])).executed = postsOf p evs ∧
    (tqRun (evs ++ [TQEvent.drain])).queue = [] := by
  have hrun : tqRun (evs ++ [TQEvent.drain]) = tqStep (tqRun evs) TQEvent.drain := by
    unfold tqRun
    rw [List.foldl_append]
    rfl
  constructor
  · rw [hrun]
    show tasksOf p ((tqRun evs).executed ++ (tqRun evs).queue) = postsOf p evs
    have := tasksOf_foldl_step p evs ⟨[], []⟩
    simpa [tqRun, tasksOf] using this
  · rw [hrun]
    rfl

/-- C9: reload is last-write-wins — posting `queue_reload(s1)` then
`queue_reload(s2)` (after any earlier tasks `pre`) leaves
`settingsLocalCopy = s2` after the drain, the same final state as posting
`queue_reload(s2)` alone. -/
theorem queueReload_last_write_wins {σ : Type} (w : σ) (pre : List (WorkerTask σ))
    (s1 s2 : σ) :
    drainTasks w (pre ++ [WorkerTask.reload s1, WorkerTask.reload s2]) = s2 ∧
    drainTasks w (pre ++ [WorkerTask.reload s2]) = s2 := by
  constructor <;> simp [drainTasks, List.foldl_append, execTask]

/-- Witness for C4: removing handle 5 twice from `[(3, 7)]` equals removing
it once, and draining a dropped or already-removed entry is a no-op. -/
theorem removeClient_idempotent_witness :
    removeClient (removeClient ([(3, 7)] : Registry Nat) 5) 5 =
      removeClient ([(3, 7)] : Registry Nat) 5 ∧
    drainRemovalEntry ([(3, 7)] : Registry Nat) none = [(3, 7)] ∧
    drainRemovalEntry ([(3, 7)] : Registry Nat) (some 5) = [(3, 7)] :=
  ⟨(removeClient_idempotent [(3, 7)] 5).1,
   (removeClient_idempotent [(3, 7)] 5).2.1,
   (removeClient_idempotent [(3, 7)] 5).2.2 (by decide)⟩

theorem countFor_doKeepAliveCheck_le (resolve : Nat → Option Client) (now i : Nat)
    (m : KAMap) :
    countFor i (doKeepAliveCheck resolve now m).map ≤ countFor i m := by
  show countFor i
      (((processChecks resolve now (checksOf (dueBuckets now m))).1).foldl
        (fun acc p => insertCheck acc p.1 p.2) (restBuckets now m)) ≤
    countFor i m
  rw [countFor_foldl_insert]
  have h1 := processChecks_re_count_le resolve now i (checksOf (dueBuckets now m))
  have h2 := countFor_split i now m
  have h3 : countFor i (dueBuckets now m) =
      (checksOf (dueBuckets now m)).countP (fun chk => chk.clientId == i) := rfl
  omega

theorem mem_checksOf_doKeepAliveCheck {resolve : Nat → Option Client} {now : Nat}
    {m : KAMap} {chk : KACheck}
    (h : chk ∈ checksOf (doKeepAliveCheck resolve now m).map) :
    chk ∈ checksOf m := by
  have h' : chk ∈ checksOf
      (((processChecks resolve now (checksOf (dueBuckets now m))).1).foldl
        (fun acc p => insertCheck acc p.1 p.2) (restBuckets now m)) := h
  rcases mem_checksOf_foldl_insert _ _ h' with h0 | ⟨d, hd⟩
  · exact mem_checksOf_filter h0
  · exact mem_checksOf_filter (processChecks_re_mem hd).1

/-- Lifting a single check with a given client identity to a positive
count. -/
theorem countFor_pos_of_mem {i : Nat} {m : KAMap} {chk : KACheck}
    (h : chk ∈ checksOf m) (hc : chk.clientId = i) : 0 < countFor i m := by
  unfold countFor
  exact List.countP_pos_iff.mpr ⟨chk, h, by simp [hc]⟩

/-- Every reachable keep-alive state satisfies the invariant `KAInv`. -/
theorem ka_reach_inv {s : KAState} (h : KAReach s) : KAInv s := by
  induction h with
  | init => exact ⟨List.nodup_nil, by simp, by simp [checksOf]⟩
  | connect s c now keepRechecking hs hfresh hnochk ih =>
    obtain ⟨hnd, hcount, hka⟩ := ih
    have hfresh' : ∀ x ∈ s.clients, x.cid ≠ c.cid := by
      intro x hx hxc
      have := List.find?_eq_none.mp hfresh x hx
      simp [hxc] at this
    refine ⟨?_, ?_, ?_⟩
    · simp only [List.map_cons]
      refine List.nodup_cons.mpr ⟨?_, hnd⟩
      intro hmem
      obtain ⟨x, hx, hxc⟩ := List.mem_map.mp hmem
      exact hfresh' x hx hxc
    · intro x hx
      by_cases hk : c.keepAlive = 0
      · simp only [queueClientNextKeepAliveCheck, if_pos hk]
        rcases List.mem_cons.mp hx with rfl | hx'
        · omega
        · exact hcount x hx'
      · simp only [queueClientNextKeepAliveCheck, if_neg hk]
        rw [countFor_insertCheck]
        rcases List.mem_cons.mp hx with rfl | hx'
        · rw [if_pos rfl]
          omega
        · have hne : (⟨c.cid, keepRechecking⟩ : KACheck).clientId ≠ x.cid :=
            fun he => hfresh' x hx' (by simpa using he.symm)
          rw [if_neg hne]
          simpa using hcount x hx'
    · intro chk hchk x hx hcx
      by_cases hk : c.keepAlive = 0
      · simp only [queueClientNextKeepAliveCheck, if_pos hk] at hchk
        rcases List.mem_cons.mp hx with rfl | hx'
        · exfalso
          have := countFor_pos_of_mem hchk hcx
          omega
        · exact hka chk hchk x hx' hcx
      · simp only [queueClientNextKeepAliveCheck, if_neg hk] at hchk
        rcases mem_checksOf_insertCheck hchk with rfl | hchk'
        · rcases List.mem_cons.mp hx with rfl | hx'
          · omega
          · exfalso
            exact hfresh' x hx' (by simpa using hcx.symm)
        · rcases List.mem_cons.mp hx with rfl | hx'
          · exfalso
            have := countFor_pos_of_mem hchk' hcx
            omega
          · exact hka chk hchk' x hx' hcx
  | disconnect s i hs ih =>
    obtain ⟨hnd, hcount, hka⟩ := ih
    refine ⟨?_, ?_, ?_⟩
    · exact hnd.sublist ((List.filter_sublist s.clients).map (·.cid))
    · intro x hx
      exact hcount x (List.mem_of_mem_filter hx)
    · intro chk hchk x hx hcx
      exact hka chk hchk x (List.mem_of_mem_filter hx) hcx
  | activity s i t hs ih =>
    obtain ⟨hnd, hcount, hka⟩ := ih
    have hcid : ∀ x : Client,
        ((if x.cid = i then { x with lastActivity := t } else x) : Client).cid =
          x.cid := by
      intro x
      by_cases hx : x.cid = i <;> simp [hx]
    have hkal : ∀ x : Client,
        ((if x.cid = i then { x with lastActivity := t } else x) : Client).keepAlive =
          x.keepAlive := by
      intro x
      by_cases hx : x.cid = i <;> simp [hx]
    refine ⟨?_, ?_, ?_⟩
    · have heq : (s.clients.map
            (fun c => if c.cid = i then { c with lastActivity := t } else c)).map
          (·.cid) = s.clients.map (·.cid) := by
        rw [List.map_map]
        exact List.map_congr_left fun x _ => hcid x
      rw [heq]
      exact hnd
    · intro x hx
      obtain ⟨y, hy, rfl⟩ := List.mem_map.mp hx
      rw [hcid y]
      exact hcount y hy
    · intro chk hchk x hx hcx
      obtain ⟨y, hy, rfl⟩ := List.mem_map.mp hx
      rw [hkal y]
      rw [hcid y] at hcx
      exact hka chk hchk y hy hcx
  | fire s now hs ih =>
    obtain ⟨hnd, hcount, hka⟩ := ih
    refine ⟨?_, ?_, ?_⟩
    · exact hnd.sublist ((List.filter_sublist s.clients).map (·.cid))
    · intro x hx
      exact le_trans (countFor_doKeepAliveCheck_le _ now x.cid s.kaMap)
        (hcount x (List.mem_of_mem_filter hx))
    · intro chk hchk x hx hcx
      exact hka chk (mem_checksOf_doKeepAliveCheck hchk) x
        (List.mem_of_mem_filter hx) hcx

/-- C1: for a live Client with non-zero negotiated keep-alive whose last
activity lies at least `1.5 · K` seconds in the past (`2·idle ≥ 3·K`), a
keep-alive sweep fired after its bucket deadline disconnects the Client with
reason `KeepAliveTimeout` and leaves no check for it in the map (no
re-enqueue). -/
theorem keepAlive_timeout_disconnects
    (clients : List Client) (now : Nat) (m : KAMap) (c : Client)
    (hres : resolveClient clients c.cid = some c)
    (hK : 0 < c.keepAlive)
    (hexp : 3 * c.keepAlive ≤ 2 * (now - c.lastActivity))
    (hdue : ∃ b ∈ m, b.1 ≤ now ∧ ∃ chk ∈ b.2, chk.clientId = c.cid)
    (hall : ∀ b ∈ m, (∃ chk ∈ b.2, chk.clientId = c.cid) → b.1 ≤ now) :
    (c.cid, DisconnectReason.KeepAliveTimeout) ∈
        (doKeepAliveCheck (resolveClient clients) now m).disconnected ∧
    countFor c.cid (doKeepAliveCheck (resolveClient clients) now m).map = 0 := by
  obtain ⟨b, hbm, hble, chk, hchkb, hchki⟩ := hdue
  constructor
  · show (c.cid, DisconnectReason.KeepAliveTimeout) ∈
      (processChecks (resolveClient clients) now (checksOf (dueBuckets now m))).2
    refine processChecks_disconnected_iff.mpr ⟨chk, ?_, hchki, ?_⟩
    · exact mem_checksOf.mpr
        ⟨b, List.mem_filter.mpr ⟨hbm, decide_eq_true hble⟩, hchkb⟩
    · rw [hchki, hres]
      exact fireCheck_expired hexp _
  · show countFor c.cid
      (((processChecks (resolveClient clients) now
          (checksOf (dueBuckets now m))).1).foldl
        (fun acc p => insertCheck acc p.1 p.2) (restBuckets now m)) = 0
    rw [countFor_foldl_insert]
    have h1 : countFor c.cid (restBuckets now m) = 0 := by
      unfold countFor
      refine List.countP_eq_zero.mpr fun chk' hchk' => ?_
      intro hbeq
      obtain ⟨b', hb', hchk'b'⟩ := mem_checksOf.mp hchk'
      obtain ⟨hb'm, hb'p⟩ := List.mem_filter.mp hb'
      have hle := hall b' hb'm ⟨chk', hchk'b', by simpa using hbeq⟩
      simp [hle] at hb'p
    have h2 : ((processChecks (resolveClient clients) now
        (checksOf (dueBuckets now m))).1).countP
          (fun p => p.2.clientId == c.cid) = 0 := by
      refine List.countP_eq_zero.mpr fun p hp => ?_
      obtain ⟨d, chk'⟩ := p
      intro hbeq
      obtain ⟨hmem, hrt, hfc⟩ := processChecks_re_mem hp
      have hcid : chk'.clientId = c.cid := by simpa using hbeq
      rw [hcid, hres] at hfc
      rw [fireCheck_expired hexp chk'.recheck] at hfc
      exact absurd hfc (by simp)
    omega

/-- C5: at every reachable worker state, each live Client has at most one
active `KeepAliveCheck` across all buckets, and when a bucket fires, a new
check is re-enqueued only when its `recheck` flag is true. -/
theorem keepAliveCheck_unique (s : KAState) (hs : KAReach s) :
    (∀ c ∈ s.clients, countFor c.cid s.kaMap ≤ 1) ∧
    (∀ (now d : Nat) (chk : KACheck),
      (d, chk) ∈ (processChecks (resolveClient s.clients) now
          (checksOf (dueBuckets now s.kaMap))).1 →
      chk.recheck = true) := by
  obtain ⟨hnd, hcount, hka⟩ := ka_reach_inv hs
  exact ⟨hcount, fun now d chk h => (processChecks_re_mem h).2.1⟩

/-- C6: a Client whose negotiated keep-alive is 0 gets no entry inserted by
`queueClientNextKeepAliveCheck`, and at every reachable state no keep-alive
sweep ever disconnects it. -/
theorem keepAlive_zero_never_disconnected (s : KAState) (hs : KAReach s)
    (c : Client) (hc : c ∈ s.clients) (hk : c.keepAlive = 0)
    (m : KAMap) (now now2 : Nat) (b : Bool) :
    queueClientNextKeepAliveCheck m c now b = m ∧
    ∀ r, (c.cid, r) ∉
      (doKeepAliveCheck (resolveClient s.clients) now2 s.kaMap).disconnected := by
  obtain ⟨hnd, hcount, hka⟩ := ka_reach_inv hs
  refine ⟨by simp [queueClientNextKeepAliveCheck, hk], ?_⟩
  intro r hr
  have hr' : (c.cid, r) ∈ (processChecks (resolveClient s.clients) now2
      (checksOf (dueBuckets now2 s.kaMap))).2 := hr
  obtain ⟨chk, hchk, hcid, hfc⟩ := processChecks_disconnected_iff.mp hr'
  have hmem : chk ∈ checksOf s.kaMap := mem_checksOf_filter hchk
  have := hka chk hmem c hc hcid
  omega

/-- Witness for C1: client 1 with keep-alive 10 and last activity at 0 is
disconnected by the sweep at t = 15 and no check for it remains. -/
theorem keepAlive_timeout_disconnects_witness :
    (1, DisconnectReason.KeepAliveTimeout) ∈
        (doKeepAliveCheck (resolveClient [⟨1, 10, 0⟩]) 15
          [(15, [⟨1, true⟩])]).disconnected ∧
    countFor 1 (doKeepAliveCheck (resolveClient [⟨1, 10, 0⟩]) 15
        [(15, [⟨1, true⟩])]).map = 0 :=
  keepAlive_timeout_disconnects [⟨1, 10, 0⟩] 15 [(15, [⟨1, true⟩])] ⟨1, 10, 0⟩
    (by decide) (by decide) (by decide)
    ⟨(15, [⟨1, true⟩]), by decide, by decide, ⟨1, true⟩, by decide, by decide⟩
    (by decide)

/-- Witness for C5: the reachable state after client 1 (keep-alive 10)
connects at t = 0 satisfies the uniqueness invariant. -/
theorem keepAliveCheck_unique_witness :
    (∀ c ∈ [(⟨1, 10, 0⟩ : Client)], countFor c.cid [(15, [⟨1, true⟩])] ≤ 1) ∧
    (∀ (now d : Nat) (chk : KACheck),
      (d, chk) ∈ (processChecks (resolveClient [⟨1, 10, 0⟩]) now
          (checksOf (dueBuckets now [(15, [⟨1, true⟩])]))).1 →
      chk.recheck = true) :=
  keepAliveCheck_unique ⟨[⟨1, 10, 0⟩], [(15, [⟨1, true⟩])]⟩
    (KAReach.connect ⟨[], []⟩ ⟨1, 10, 0⟩ 0 true KAReach.init rfl rfl)

/-- Witness for C6: client 1 with keep-alive 0 in the reachable state after
it connects — queueing inserts nothing and a sweep at t = 100 never
disconnects it. -/
theorem keepAlive_zero_never_disconnected_witness :
    queueClientNextKeepAliveCheck [(3, [⟨2, true⟩])] ⟨1, 0, 5⟩ 7 true =
      [(3, [⟨2, true⟩])] ∧
    ∀ r, ((1, r) ∉
      (doKeepAliveCheck (resolveClient [⟨1, 0, 5⟩]) 100
        ([] : KAMap)).disconnected) :=
  keepAlive_zero_never_disconnected ⟨[⟨1, 0, 5⟩], []⟩
    (KAReach.connect ⟨[], []⟩ ⟨1, 0, 5⟩ 0 true KAReach.init rfl rfl)
    ⟨1, 0, 5⟩ (by decide) rfl [(3, [⟨2, true⟩])] 7 100 true

/-! ### Shutdown-protocol lemmas -/

theorem append_singleton_eq_append_cons {α : Type} {tr pre suf : List α} {e d : α}
    (h : tr ++ [e] = pre ++ d :: suf) :
    (suf = [] ∧ pre = tr ∧ d = e) ∨
    ∃ suf', suf = suf' ++ [e] ∧ tr = pre ++ d :: suf' := by
  rcases List.eq_nil_or_concat suf with rfl | ⟨suf', e', rfl⟩
  · have h' := List.append_inj' h rfl
    refine Or.inl ⟨rfl, h'.1.symm, ?_⟩
    injection h'.2.symm
  · rw [List.concat_eq_append] at h ⊢
    rw [show d :: (suf' ++ [e']) = (d :: suf') ++ [e'] from rfl,
      ← List.append_assoc] at h
    have h' := List.append_inj' h rfl
    have he : e = e' := by injection h'.2
    exact Or.inr ⟨suf', by rw [he], h'.1⟩

theorem setRunningFalse_allWillsQueued {n : Nat} (s : Fin n → WorkerFlags)
    (w v : Fin n) :
    (setRunningFalse s w v).allWillsQueued = (s v).allWillsQueued := by
  unfold setRunningFalse
  by_cases h : v = w <;> simp [h]

theorem setRunningFalse_allDisconnectsSent {n : Nat} (s : Fin n → WorkerFlags)
    (w v : Fin n) :
    (setRunningFalse s w v).allDisconnectsSent = (s v).allDisconnectsSent := by
  unfold setRunningFalse
  by_cases h : v = w <;> simp [h]

theorem setWillsQueued_allWillsQueued_iff {n : Nat} (s : Fin n → WorkerFlags)
    (w v : Fin n) :
    (setWillsQueued s w v).allWillsQueued = true ↔
      v = w ∨ (s v).allWillsQueued = true := by
  unfold setWillsQueued
  by_cases h : v = w <;> simp [h]

theorem setWillsQueued_allDisconnectsSent {n : Nat} (s : Fin n → WorkerFlags)
    (w v : Fin n) :
    (setWillsQueued s w v).allDisconnectsSent = (s v).allDisconnectsSent := by
  unfold setWillsQueued
  by_cases h : v = w <;> simp [h]

theorem setDisconnectsSent_allWillsQueued {n : Nat} (s : Fin n → WorkerFlags)
    (w v : Fin n) :
    (setDisconnectsSent s w v).allWillsQueued = (s v).allWillsQueued := by
  unfold setDisconnectsSent
  by_cases h : v = w <;> simp [h]

theorem setDisconnectsSent_allDisconnectsSent_iff {n : Nat}
    (s : Fin n → WorkerFlags) (w v : Fin n) :
    (setDisconnectsSent s w v).allDisconnectsSent = true ↔
      v = w ∨ (s v).allDisconnectsSent = true := by
  unfold setDisconnectsSent
  by_cases h : v = w <;> simp [h]

/-- The shutdown-protocol invariant: the barrier flags record exactly the
events that happened, and every DISCONNECT-sending event is preceded in the
trace by every worker's will submission. -/
theorem shutdown_inv {n : Nat} {s : Fin n → WorkerFlags} {tr : List (SEvent n)}
    (h : ShutdownReach n s tr) :
    (∀ v, (s v).allWillsQueued = true ↔ SEvent.wills v ∈ tr) ∧
    (∀ v, (s v).allDisconnectsSent = true ↔ SEvent.disconnects v ∈ tr) ∧
    (∀ pre v suf, tr = pre ++ SEvent.disconnects v :: suf →
      ∀ u, SEvent.wills u ∈ pre) := by
  induction h with
  | init =>
    refine ⟨by simp, by simp, ?_⟩
    intro pre v suf hpre u
    exact absurd hpre.symm (by simp)
  | quit s tr w hs ih =>
    obtain ⟨ih1, ih2, ih3⟩ := ih
    refine ⟨?_, ?_, ?_⟩
    · intro v
      rw [setRunningFalse_allWillsQueued, ih1 v]
      simp
    · intro v
      rw [setRunningFalse_allDisconnectsSent, ih2 v]
      simp
    · intro pre v suf hsplit u
      rcases append_singleton_eq_append_cons hsplit with ⟨_, _, hd⟩ | ⟨suf', _, htr⟩
      · exact absurd hd (by simp)
      · exact ih3 pre v suf' htr u
  | wills s tr w hs hrun hnot ih =>
    obtain ⟨ih1, ih2, ih3⟩ := ih
    refine ⟨?_, ?_, ?_⟩
    · intro v
      rw [setWillsQueued_allWillsQueued_iff, ih1 v]
      simp [or_comm]
    · intro v
      rw [setWillsQueued_allDisconnectsSent, ih2 v]
      simp
    · intro pre v suf hsplit u
      rcases append_singleton_eq_append_cons hsplit with ⟨_, _, hd⟩ | ⟨suf', _, htr⟩
      · exact absurd hd (by simp)
      · exact ih3 pre v suf' htr u
  | disconnects s tr w hs hrun hall hnot ih =>
    obtain ⟨ih1, ih2, ih3⟩ := ih
    refine ⟨?_, ?_, ?_⟩
    · intro v
      rw [setDisconnectsSent_allWillsQueued, ih1 v]
      simp
    · intro v
      rw [setDisconnectsSent_allDisconnectsSent_iff, ih2 v]
      simp [or_comm]
    · intro pre v suf hsplit u
      rcases append_singleton_eq_append_cons hsplit with ⟨_, hpre, _⟩ | ⟨suf', _, htr⟩
      · rw [hpre]
        exact (ih1 u).mp (hall u)
      · exact ih3 pre v suf' htr u

/-- C8: a worker's loop exits only with `running` cleared and both barrier
flags set on every worker; at that point every worker has submitted its
wills and sent its DISCONNECTs, and in the trace every DISCONNECT-sending
event is preceded by every worker's will submission. -/
theorem graceful_shutdown_two_barrier {n : Nat} (s : Fin n → WorkerFlags)
    (tr : List (SEvent n)) (w : Fin n)
    (hreach : ShutdownReach n s tr) (hexit : canExitLoop s w) :
    (s w).running = false ∧
    (∀ v, (s v).allWillsQueued = true ∧ (s v).allDisconnectsSent = true) ∧
    (∀ v, SEvent.wills v ∈ tr ∧ SEvent.disconnects v ∈ tr) ∧
    (∀ pre v suf, tr = pre ++ SEvent.disconnects v :: suf →
      ∀ u, SEvent.wills u ∈ pre) := by
  obtain ⟨i1, i2, i3⟩ := shutdown_inv hreach
  obtain ⟨hrun, hflags⟩ := hexit
  exact ⟨hrun, hflags,
    fun v => ⟨(i1 v).mp (hflags v).1, (i2 v).mp (hflags v).2⟩, i3⟩

/-- Witness for C8: the complete two-worker shutdown run. -/
theorem graceful_shutdown_two_barrier_witness :
    (demoShutdownState 0).running = false ∧
    (∀ v, (demoShutdownState v).allWillsQueued = true ∧
      (demoShutdownState v).allDisconnectsSent = true) ∧
    (∀ v, SEvent.wills v ∈ demoShutdownTrace ∧
      SEvent.disconnects v ∈ demoShutdownTrace) ∧
    (∀ pre v suf, demoShutdownTrace = pre ++ SEvent.disconnects v :: suf →
      ∀ u, SEvent.wills u ∈ pre) :=
  graceful_shutdown_two_barrier demoShutdownState demoShutdownTrace 0
    (ShutdownReach.disconnects _ _ 1
      (ShutdownReach.disconnects _ _ 0
        (ShutdownReach.wills _ _ 1
          (ShutdownReach.wills _ _ 0
            (ShutdownReach.quit _ _ 1
              (ShutdownReach.quit _ _ 0 ShutdownReach.init))
            (by decide) (by decide))
          (by decide) (by decide))
        (by decide) (by decide) (by decide))
      (by decide) (by decide) (by decide))
    ⟨by decide, by decide⟩
